import Mathlib

/-!
Verification development for the `go-idempotency` HTTP middleware library.

The embedding models, faithfully to the Go source:
  * the header multimap (`Header`) with Go `http.Header` style `Get`/`Add`/`Set`,
  * request fingerprinting (`defaultKeyFunc`, with a full SHA-256 implementation),
  * the middleware control flow (`runMiddleware`, from `Middleware` in the main package),
  * the in-process store (`store/memory.go`) and the Redis-backed store (`store/redis.go`).

Machine words are `Nat` with explicit reduction modulo `2 ^ 32` where the Go code
uses 32-bit arithmetic (SHA-256 internals); bytes are `Nat` values below 256.
-/

set_option autoImplicit false

namespace Idem

/-- Byte sequence of an ASCII string (Go `[]byte(s)`; all inputs used here are ASCII). -/
def bytes (s : String) : List Nat := s.data.map Char.toNat

/-! ### Headers

Go `http.Header` is `map[string][]string`. We model it as an association list with
unique keys; `headerAdd` appends a value to the slice at the key (creating the key at
the end if absent), `headerSet` replaces the slice by a singleton, `headerGet` returns
the first value or `""`. Keys are taken to be already in canonical form. -/

abbrev Header : Type := List (String × List String)

def headerGet (h : Header) (k : String) : String :=
  match h.find? (fun p => p.1 == k) with
  | some (_, v :: _) => v
  | _ => ""

def headerAdd (h : Header) (k v : String) : Header :=
  match h with
  | [] => [(k, [v])]
  | (k', vs) :: rest =>
      if k' = k then (k', vs ++ [v]) :: rest else (k', vs) :: headerAdd rest k v

def headerSet (h : Header) (k v : String) : Header :=
  match h with
  | [] => [(k, [v])]
  | (k', vs) :: rest =>
      if k' = k then (k', [v]) :: rest else (k', vs) :: headerSet rest k v

/-- The keys of a header map are pairwise distinct (invariant of a Go map). -/
def uniqueKeys (h : Header) : Prop := (h.map Prod.fst).Nodup

/-! ### SHA-256 (crypto/sha256), over byte lists, 32-bit words as `Nat` mod `2^32`. -/

def w32 (n : Nat) : Nat := n % 4294967296

def rotr (x n : Nat) : Nat := (Nat.lor (x >>> n) (x <<< (32 - n))) % 4294967296

def bigSigma0 (x : Nat) : Nat := Nat.xor (Nat.xor (rotr x 2) (rotr x 13)) (rotr x 22)

def bigSigma1 (x : Nat) : Nat := Nat.xor (Nat.xor (rotr x 6) (rotr x 11)) (rotr x 25)

def smallSigma0 (x : Nat) : Nat := Nat.xor (Nat.xor (rotr x 7) (rotr x 18)) (x / 8)

def smallSigma1 (x : Nat) : Nat := Nat.xor (Nat.xor (rotr x 17) (rotr x 19)) (x / 1024)

def chF (x y z : Nat) : Nat := Nat.xor (x.land y) ((Nat.xor 4294967295 x).land z)

def majF (x y z : Nat) : Nat := Nat.xor (Nat.xor (x.land y) (x.land z)) (y.land z)

def shaK : List Nat :=
  [1116352408, 1899447441, 3049323471, 3921009573, 961987163,
   1508970993, 2453635748, 2870763221, 3624381080, 310598401,
   607225278, 1426881987, 1925078388, 2162078206, 2614888103,
   3248222580, 3835390401, 4022224774, 264347078, 604807628,
   770255983, 1249150122, 1555081692, 1996064986, 2554220882,
   2821834349, 2952996808, 3210313671, 3336571891, 3584528711,
   113926993, 338241895, 666307205, 773529912, 1294757372,
   1396182291, 1695183700, 1986661051, 2177026350, 2456956037,
   2730485921, 2820302411, 3259730800, 3345764771, 3516065817,
   3600352804, 4094571909, 275423344, 430227734, 506948616,
   659060556, 883997877, 958139571, 1322822218, 1537002063,
   1747873779, 1955562222, 2024104815, 2227730452, 2361852424,
   2428436474, 2756734187, 3204031479, 3329325298]

def shaH0 : List Nat :=
  [1779033703, 3144134277, 1013904242, 2773480762, 1359893119,
   2600822924, 528734635, 1541459225]

/-- `k` bytes of `n`, big-endian. -/
def beBytes (k : Nat) (n : Nat) : List Nat :=
  match k with
  | 0 => []
  | k + 1 => beBytes k (n / 256) ++ [n % 256]

/-- SHA-256 padding: append `0x80`, zeros to 56 mod 64, then the 64-bit bit length. -/
def padMsg (ms : List Nat) : List Nat :=
  let L := ms.length
  let z := (119 - L % 64) % 64
  ms ++ [128] ++ List.replicate z 0 ++ beBytes 8 (8 * L)

/-- Group bytes into big-endian 32-bit words. -/
def toWords : List Nat → List Nat
  | a :: b :: c :: d :: rest => (((a * 256 + b) * 256 + c) * 256 + d) :: toWords rest
  | _ => []

/-- Split a byte list into 64-byte blocks (`fuel` bounds the recursion). -/
def toBlocks (fuel : Nat) (l : List Nat) : List (List Nat) :=
  match fuel with
  | 0 => []
  | f + 1 =>
      match l with
      | [] => []
      | _ => l.take 64 :: toBlocks f (l.drop 64)

/-- Extend 16 message-schedule words to 64. -/
def schedule (ws : List Nat) : List Nat :=
  (List.range 48).foldl
    (fun acc _ =>
      let n := acc.length
      let g := fun (i : Nat) => acc.getD (n - i) 0
      acc ++ [w32 (smallSigma1 (g 2) + g 7 + smallSigma0 (g 15) + g 16)])
    ws

def compressBlock (H : List Nat) (block : List Nat) : List Nat :=
  let ws := schedule (toWords block)
  let st := (List.range 64).foldl
    (fun (st : List Nat) t =>
      match st with
      | [a, b, c, d, e, f, g, h] =>
          let t1 := w32 (h + bigSigma1 e + chF e f g + shaK.getD t 0 + ws.getD t 0)
          let t2 := w32 (bigSigma0 a + majF a b c)
          [w32 (t1 + t2), a, b, c, w32 (d + t1), e, f, g]
      | s => s)
    H
  (List.zip H st).map (fun p => w32 (p.1 + p.2))

/-- SHA-256 digest as 32 bytes. -/
def sha256 (ms : List Nat) : List Nat :=
  let padded := padMsg ms
  let final := (toBlocks padded.length padded).foldl compressBlock shaH0
  (final.map (beBytes 4)).flatten

def hexDigit (n : Nat) : Char := "0123456789abcdef".data.getD n 'x'

/-- Lowercase hex of a byte list (Go `fmt.Sprintf` with the x verb). -/
def hexStr (bs : List Nat) : String :=
  String.mk ((bs.map (fun b => [hexDigit (b / 16), hexDigit (b % 16)])).flatten)

def sha256hex (ms : List Nat) : String := hexStr (sha256 ms)

/-! ### Requests, responses and the response writer -/

/-- The part of `*http.Request` the middleware reads: method, URL path, body, headers. -/
structure Request where
  method : String
  path : String
  body : List Nat
  headers : Header
deriving DecidableEq

/-- `CachedResponse` (store.go): status code, header map, body bytes, timestamp. -/
structure CachedResponse where
  statusCode : Nat
  headers : Header
  body : List Nat
  timestamp : Nat
deriving DecidableEq

/-- The observable state of an `http.ResponseWriter`: header map, the status actually
sent (none until `WriteHeader` or the first `Write`), and the body bytes sent. -/
structure RespWriter where
  headers : Header
  status : Option Nat
  body : List Nat
deriving DecidableEq

def emptyWriter : RespWriter := ⟨[], none, []⟩

/-- An operation a handler can perform on its `http.ResponseWriter`. -/
inductive WOp where
  | setH (k v : String)
  | addH (k v : String)
  | writeHeader (status : Nat)
  | write (bs : List Nat)
deriving DecidableEq

/-- `http.ResponseWriter` semantics: `WriteHeader` takes effect once; the first
`Write` without a prior `WriteHeader` implicitly sends status 200. -/
def wApply (w : RespWriter) : WOp → RespWriter
  | .setH k v => { w with headers := headerSet w.headers k v }
  | .addH k v => { w with headers := headerAdd w.headers k v }
  | .writeHeader s => if w.status.isSome then w else { w with status := some s }
  | .write bs =>
      { headers := w.headers, status := some (w.status.getD 200), body := w.body ++ bs }

/-- A wrapped handler is opaque: it maps the request to the sequence of writer
operations it performs. -/
abbrev Handler : Type := Request → List WOp

/-- Running a handler directly against a fresh response writer. -/
def runHandler (next : Handler) (r : Request) : RespWriter :=
  (next r).foldl wApply emptyWriter

/-- `responseRecorder`: wraps the real writer, records the last `WriteHeader` status
(defaulting to 200) and tees body bytes into a buffer while forwarding everything. -/
structure Recorder where
  w : RespWriter
  statusCode : Nat
  recBody : List Nat
deriving DecidableEq

def recApply (rec : Recorder) : WOp → Recorder
  | .writeHeader s => { rec with statusCode := s, w := wApply rec.w (.writeHeader s) }
  | .write bs => { rec with recBody := rec.recBody ++ bs, w := wApply rec.w (.write bs) }
  | op => { rec with w := wApply rec.w op }

/-- `http.Error(w, msg, code)`: sets Content-Type and X-Content-Type-Options headers,
writes the status code and the message followed by a newline. -/
def httpError (code : Nat) (msg : String) : RespWriter :=
  let w : RespWriter :=
    { emptyWriter with
        headers :=
          headerSet (headerSet [] "Content-Type" "text/plain; charset=utf-8")
            "X-Content-Type-Options" "nosniff" }
  wApply (wApply w (.writeHeader code)) (.write (bytes (msg ++ "\n")))

/-- `writeCachedResponse`: copy every cached header value via `Add`, set the
`X-Idempotency-Cached: true` marker, then write status and body. -/
def writeCached (w : RespWriter) (c : CachedResponse) : RespWriter :=
  let w1 := c.headers.foldl
    (fun acc p => p.2.foldl (fun a v => { a with headers := headerAdd a.headers p.1 v }) acc)
    w
  let w2 : RespWriter :=
    { w1 with headers := headerSet w1.headers "X-Idempotency-Cached" "true" }
  wApply (wApply w2 (.writeHeader c.statusCode)) (.write c.body)

/-! ### Configuration and fingerprinting -/

def DefaultHeaderName : String := "Idempotency-Key"

/-- 24 hours in nanoseconds (`24 * time.Hour`). -/
def DefaultTTL : Nat := 86400000000000

/-- `KeyFunc`: errors are modelled as `none`. -/
abbrev KeyFunc : Type := Request → String → Option String

/-- `defaultKeyFunc`: fingerprint is the hex SHA-256 of method ‖ path ‖ body,
appended to the idempotency key with a colon. Reading the body cannot fail in the
pure model, so the result is always `some`. -/
def defaultKeyFunc : KeyFunc := fun r idKey =>
  some (idKey ++ ":" ++ sha256hex (bytes r.method ++ bytes r.path ++ r.body))

structure Config where
  headerName : String
  ttl : Nat
  keyFunc : KeyFunc

def defaultConfig : Config := ⟨DefaultHeaderName, DefaultTTL, defaultKeyFunc⟩

/-- `isIdempotentMethod`: only POST, PATCH and PUT enter the idempotency path. -/
def isIdempotentMethod (method : String) : Bool :=
  method == "POST" || method == "PATCH" || method == "PUT"

/-! ### The store capability -/

/-- Go `error` values a store operation can return. -/
inductive GErr where
  | notFound
  | other (msg : String)
deriving DecidableEq

/-- Result of `Store.Lock`: success carries the new store state and the `unlock`
capability; otherwise `ErrRequestInProgress` or another error. -/
inductive LockRes (σ : Type) where
  | ok (s : σ) (unlock : σ → σ)
  | inProgress (s : σ)
  | fail (s : σ)

/-- The `Store` interface: `Get` is a read returning Go's `(*CachedResponse, error)`
pair, `Set` returns the new state and an optional error, `Lock` as above. -/
structure StoreOps (σ : Type) where
  get : σ → String → Option CachedResponse × Option GErr
  set : σ → String → CachedResponse → Nat → σ × Option GErr
  lock : σ → String → LockRes σ

/-- Observable actions of one middleware invocation, in order. -/
inductive Event where
  | keyFn
  | lockCall
  | getCall
  | setCall
  | handlerRun
  | unlockCall
deriving DecidableEq

structure MwOut (σ : Type) where
  writer : RespWriter
  store : σ
  events : List Event

/-- One request through `Middleware(store, opts...)`: direct translation of the
handler closure in the main package. `now` is the value of `time.Now()` while the
request is handled. -/
def runMiddleware {σ : Type} (ops : StoreOps σ) (cfg : Config) (next : Handler)
    (now : Nat) (s : σ) (r : Request) : MwOut σ :=
  if ¬ isIdempotentMethod r.method then
    ⟨runHandler next r, s, [.handlerRun]⟩
  else
    let key := headerGet r.headers cfg.headerName
    if key = "" then
      ⟨runHandler next r, s, [.handlerRun]⟩
    else
      match cfg.keyFunc r key with
      | none => ⟨httpError 400 "Invalid idempotency key", s, [.keyFn]⟩
      | some fullKey =>
        match ops.lock s fullKey with
        | .inProgress s1 =>
            ⟨httpError 409 "Request already in progress", s1, [.keyFn, .lockCall]⟩
        | .fail s1 =>
            ⟨httpError 500 "Internal server error", s1, [.keyFn, .lockCall]⟩
        | .ok s1 unlock =>
          match ops.get s1 fullKey with
          | (some cached, none) =>
              ⟨writeCached emptyWriter cached, unlock s1,
                [.keyFn, .lockCall, .getCall, .unlockCall]⟩
          | _ =>
              let rec1 := (next r).foldl recApply ⟨emptyWriter, 200, []⟩
              let c : CachedResponse := ⟨rec1.statusCode, rec1.w.headers, rec1.recBody, now⟩
              let s2 := (ops.set s1 fullKey c cfg.ttl).1
              ⟨rec1.w, unlock s2,
                [.keyFn, .lockCall, .getCall, .handlerRun, .setCall, .unlockCall]⟩

/-! ### In-process store (store/memory.go)

State is the cache map plus the per-key lock map. The Go `Lock` spawns a goroutine
that blocks on the per-key mutex and races it against a 100ms timer. We model the
mutex of each key by `held` plus `pending`, the number of goroutines spawned by
timed-out `Lock` calls that are still blocked in `mu.Lock()`. When the holder
unlocks while such a goroutine is pending, that goroutine acquires the mutex, its
`close(locked)` is never observed (the `select` already took the timeout branch),
and nobody holds its unlock capability — so the mutex stays held. -/

def assocFind {α : Type} (l : List (String × α)) (k : String) : Option α :=
  (l.find? (fun p => p.1 == k)).map Prod.snd

def assocSet {α : Type} (l : List (String × α)) (k : String) (v : α) :
    List (String × α) :=
  match l with
  | [] => [(k, v)]
  | (k', v') :: rest =>
      if k' == k then (k', v) :: rest else (k', v') :: assocSet rest k v

/-- Mutex state of one key in the lock map. -/
structure LockSt where
  held : Bool
  pending : Nat
deriving DecidableEq

structure MemState where
  data : List (String × CachedResponse × Nat)
  locks : List (String × LockSt)

def lockStateOf (s : MemState) (key : String) : LockSt :=
  (assocFind s.locks key).getD ⟨false, 0⟩

/-- `MemoryStore.Get`: absent key or `time.Now().After(expiresAt)` (strictly after)
yields `ErrNotFound`. -/
def memGet (now : Nat) (s : MemState) (key : String) :
    Option CachedResponse × Option GErr :=
  match assocFind s.data key with
  | none => (none, some .notFound)
  | some (c, expiresAt) =>
      if now > expiresAt then (none, some .notFound) else (some c, none)

/-- `MemoryStore.Set`: stores the response with expiry `now + ttl`; never errs. -/
def memSet (now : Nat) (s : MemState) (key : String) (c : CachedResponse) (ttl : Nat) :
    MemState × Option GErr :=
  ({ s with data := assocSet s.data key (c, now + ttl) }, none)

/-- Release of the per-key mutex (`mu.Unlock()` inside the returned closure): if an
orphaned goroutine is blocked on the mutex it acquires it immediately and leaks it;
otherwise the mutex becomes free. -/
def memUnlock (key : String) (s : MemState) : MemState :=
  let st := lockStateOf s key
  if st.pending > 0 then
    { s with locks := assocSet s.locks key ⟨true, st.pending - 1⟩ }
  else
    { s with locks := assocSet s.locks key ⟨false, 0⟩ }

/-- `MemoryStore.Lock`: look up (or create) the per-key mutex; if it is free the
spawned goroutine acquires it before the 100ms timer fires and the unlock closure is
returned; if it is held, the 100ms timer fires first, `ErrRequestInProgress` is
returned, and the spawned goroutine stays blocked on the mutex (`pending` grows). -/
def memLock (s : MemState) (key : String) : LockRes MemState :=
  let st := lockStateOf s key
  if st.held then
    .inProgress { s with locks := assocSet s.locks key ⟨true, st.pending + 1⟩ }
  else
    .ok { s with locks := assocSet s.locks key ⟨true, st.pending⟩ } (memUnlock key)

/-- One pass of the cleanup goroutine: delete every entry with `now.After(expiresAt)`. -/
def memCleanup (now : Nat) (s : MemState) : MemState :=
  { s with data := s.data.filter (fun p => ¬ now > p.2.2) }

def memOps (now : Nat) : StoreOps MemState := ⟨memGet now, memSet now, memLock⟩

def emptyMemState : MemState := ⟨[], []⟩

/-! ### Redis store (store/redis.go), Lock/unlock only

The Redis client is modelled as a key-value map with expiry times plus a log of the
commands issued, with the atomicity of `SETNX` given by the sequential semantics. -/

inductive RCmd where
  | setnx (key val : String) (ttl : Nat)
  | del (key : String)
deriving DecidableEq

structure RedisState where
  kv : List (String × String × Nat)
  log : List RCmd

/-- A key exists for `SETNX` purposes iff present and not expired. -/
def redisLive (now : Nat) (s : RedisState) (key : String) : Bool :=
  match assocFind s.kv key with
  | none => false
  | some (_, expiresAt) => now ≤ expiresAt

/-- `client.SetNX(ctx, key, val, ttl)`: atomically set if absent; returns whether it
was set. The command is logged either way. -/
def redisSetNX (now : Nat) (s : RedisState) (key val : String) (ttl : Nat) :
    RedisState × Bool :=
  if redisLive now s key then
    ({ s with log := s.log ++ [.setnx key val ttl] }, false)
  else
    ({ kv := assocSet s.kv key (val, now + ttl), log := s.log ++ [.setnx key val ttl] },
      true)

/-- `client.Del(ctx, key)`. -/
def redisDel (s : RedisState) (key : String) : RedisState :=
  { kv := s.kv.filter (fun p => ¬ p.1 == key), log := s.log ++ [.del key] }

/-- 30 seconds in nanoseconds (`30 * time.Second`). -/
def redisLockTTL : Nat := 30000000000

/-- `RedisStore.Lock`: one `SETNX` on `"lock:" + key` with a 30s TTL; already held
⇒ `ErrRequestInProgress`, else the unlock capability deletes the lock key. -/
def redisLock (now : Nat) (s : RedisState) (key : String) : LockRes RedisState :=
  let lockKey := "lock:" ++ key
  let res := redisSetNX now s lockKey "1" redisLockTTL
  if res.2 then
    .ok res.1 (fun s' => redisDel s' lockKey)
  else
    .inProgress res.1

/-- Iterated `Lock` attempts on one key of the in-process store (the result and the
unlock capability of each attempt are discarded, as a caller that got
`ErrRequestInProgress` would). -/
def lockIter (key : String) : Nat → MemState → MemState
  | 0, s => s
  | n + 1, s =>
      match memLock s key with
      | .ok s' _ => lockIter key n s'
      | .inProgress s' => lockIter key n s'
      | .fail s' => lockIter key n s'

/-- Concrete handler used for concrete executions: sets a content type, writes a
200 status, writes a body. -/
def cxHandler : Handler := fun _ =>
  [.setH "Content-Type" "application/json", .writeHeader 200, .write (bytes "ok")]

/-- Concrete POST request carrying an idempotency key. -/
def cxRequest : Request :=
  ⟨"POST", "/pay", bytes "amount=100", [("Idempotency-Key", ["key-1"])]⟩

/-- First run of the full middleware (default config, in-process store). -/
def cxRun1 : MwOut MemState :=
  runMiddleware (memOps 0) defaultConfig cxHandler 0 emptyMemState cxRequest

/-- Second, identical run against the store state left by the first. -/
def cxRun2 : MwOut MemState :=
  runMiddleware (memOps 0) defaultConfig cxHandler 0 cxRun1.store cxRequest

/-! ### Helper lemmas -/

/-- `addValues h k vs` adds every value of `vs` under key `k` (the inner loop of
`writeCachedResponse`). -/
def addValues (h : Header) (k : String) (vs : List String) : Header :=
  vs.foldl (fun a v => headerAdd a k v) h

/-- The net/http writer contract: at most one `WriteHeader`, and only before the
first `Write`. `sawAny` records whether a `Write` or `WriteHeader` happened yet. -/
def wBehaved (sawAny : Bool) : List WOp → Bool
  | [] => true
  | .writeHeader _ :: rest => !sawAny && wBehaved true rest
  | .write _ :: rest => wBehaved true rest
  | .setH _ _ :: rest => wBehaved sawAny rest
  | .addH _ _ :: rest => wBehaved sawAny rest


/-- State carried by any `Lock` outcome. -/
def stateOf {σ : Type} : LockRes σ → σ
  | .ok s _ => s
  | .inProgress s => s
  | .fail s => s

/-- A header map as produced by the system: distinct keys, no empty value slice. -/
def headerWF (h : Header) : Prop :=
  (h.map Prod.fst).Nodup ∧ ∀ p ∈ h, p.2 ≠ ([] : List String)

set_option maxRecDepth 100000 in
/-- Standard test vector, checking the SHA-256 embedding. -/
theorem sha256hex_abc :
    sha256hex (bytes "abc") =
      "ba7816bf8f01cfea414140de5dae2223b00361a396177a9cb410ff61f20015ad" := by
  rfl

theorem headerWF_nil : headerWF [] := by
  constructor
  · simp
  · intro p hp
    simp at hp

theorem assocFind_set_self {α : Type} (l : List (String × α)) (k : String) (v : α) :
    assocFind (assocSet l k v) k = some v := by
  induction l with
  | nil => simp [assocFind, assocSet, List.find?]
  | cons hd tl ih =>
      by_cases h : hd.1 = k
      · simp [assocSet, assocFind, List.find?, h]
      · simpa [assocSet, assocFind, List.find?, h] using ih

theorem headerGet_set_self (h : Header) (k v : String) :
    headerGet (headerSet h k v) k = v := by
  induction h with
  | nil => simp [headerSet, headerGet, List.find?]
  | cons hd tl ih =>
      by_cases hk : hd.1 = k
      · cases hd
        simp_all [headerSet, headerGet, List.find?]
      · cases hd
        simp_all [headerSet, headerGet, List.find?]

theorem headerAdd_notmem (h : Header) (k v : String) (hk : k ∉ h.map Prod.fst) :
    headerAdd h k v = h ++ [(k, [v])] := by
  induction h with
  | nil => rfl
  | cons hd tl ih =>
      simp only [List.map_cons, List.mem_cons] at hk
      push_neg at hk
      cases hd with
      | mk k' vs =>
          simp only [headerAdd, List.cons_append]
          rw [if_neg (fun he => hk.1 he.symm), ih hk.2]

theorem headerAdd_last (h : Header) (k : String) (hk : k ∉ h.map Prod.fst)
    (w : List String) (v : String) :
    headerAdd (h ++ [(k, w)]) k v = h ++ [(k, w ++ [v])] := by
  induction h with
  | nil => simp [headerAdd]
  | cons hd tl ih =>
      simp only [List.map_cons, List.mem_cons] at hk
      push_neg at hk
      cases hd with
      | mk k' vs =>
          simp only [headerAdd, List.cons_append]
          rw [if_neg (fun he => hk.1 he.symm)]
          simp only [List.append_eq]
          rw [ih hk.2]

theorem addValues_last (h : Header) (k : String) (hk : k ∉ h.map Prod.fst)
    (w vs : List String) :
    addValues (h ++ [(k, w)]) k vs = h ++ [(k, w ++ vs)] := by
  induction vs generalizing w with
  | nil => simp [addValues]
  | cons v vs ih =>
      show addValues (headerAdd (h ++ [(k, w)]) k v) k vs = _
      rw [headerAdd_last h k hk w v, ih (w ++ [v])]
      simp

theorem addValues_fresh (h : Header) (k : String) (vs : List String)
    (hk : k ∉ h.map Prod.fst) (hne : vs ≠ []) :
    addValues h k vs = h ++ [(k, vs)] := by
  cases vs with
  | nil => exact absurd rfl hne
  | cons v vs =>
      show addValues (headerAdd h k v) k vs = _
      rw [headerAdd_notmem h k v hk, addValues_last h k hk [v] vs]
      simp

theorem addAll_eq (hs : Header) :
    ∀ acc : Header, (hs.map Prod.fst).Nodup →
      (∀ p ∈ hs, p.1 ∉ acc.map Prod.fst) → (∀ p ∈ hs, p.2 ≠ ([] : List String)) →
      hs.foldl (fun a p => addValues a p.1 p.2) acc = acc ++ hs := by
  induction hs with
  | nil => intro acc _ _ _; simp
  | cons p rest ih =>
      intro acc hnd hfresh hne
      simp only [List.foldl_cons]
      rw [addValues_fresh acc p.1 p.2 (hfresh p (by simp)) (hne p (by simp))]
      simp only [List.map_cons, List.nodup_cons] at hnd
      rw [ih (acc ++ [(p.1, p.2)]) hnd.2 ?fresh (fun q hq => hne q (by simp [hq]))]
      · simp
      case fresh =>
        intro q hq
        simp only [List.map_append, List.mem_append, List.map_cons, List.map_nil,
          List.mem_singleton]
        push_neg
        refine ⟨hfresh q (by simp [hq]), ?_⟩
        intro he
        exact hnd.1 (he ▸ List.mem_map_of_mem Prod.fst hq)

theorem writeCached_fold_inner (k : String) (vs : List String) :
    ∀ acc : RespWriter,
      vs.foldl (fun a v => { a with headers := headerAdd a.headers k v }) acc =
        { acc with headers := addValues acc.headers k vs } := by
  induction vs with
  | nil => intro acc; rfl
  | cons v vs ih =>
      intro acc
      simp only [List.foldl_cons]
      rw [ih]
      rfl

theorem writeCached_fold (hs : Header) :
    ∀ w : RespWriter,
      hs.foldl
        (fun acc p =>
          p.2.foldl (fun a v => { a with headers := headerAdd a.headers p.1 v }) acc) w =
      { w with headers := hs.foldl (fun a p => addValues a p.1 p.2) w.headers } := by
  induction hs with
  | nil => intro w; rfl
  | cons p rest ih =>
      intro w
      simp only [List.foldl_cons]
      rw [writeCached_fold_inner, ih]

/-- `writeCachedResponse` on a fresh writer: the cached headers verbatim with the
marker set, the cached status, the cached body. -/
theorem writeCached_spec (c : CachedResponse) (hwf : headerWF c.headers) :
    writeCached emptyWriter c =
      ⟨headerSet c.headers "X-Idempotency-Cached" "true", some c.statusCode, c.body⟩ := by
  have h1 : List.foldl (fun a p => addValues a p.1 p.2) emptyWriter.headers c.headers =
      c.headers := by
    simpa [emptyWriter] using addAll_eq c.headers [] hwf.1 (by intro p _; simp) hwf.2
  unfold writeCached
  rw [writeCached_fold, h1]
  simp [emptyWriter, wApply]

/-! ### Recorder invariants -/

theorem recApply_w (rec : Recorder) (op : WOp) : (recApply rec op).w = wApply rec.w op := by
  cases op <;> rfl

theorem foldRec_w (ops : List WOp) :
    ∀ rec : Recorder, (ops.foldl recApply rec).w = ops.foldl wApply rec.w := by
  induction ops with
  | nil => intro rec; rfl
  | cons op ops ih =>
      intro rec
      simp only [List.foldl_cons]
      rw [ih, recApply_w]

/-- The tee: the recorder's buffered body tracks the bytes sent to the caller. -/
theorem foldRec_body (ops : List WOp) :
    ∀ rec : Recorder, rec.w.body = rec.recBody →
      ((ops.foldl recApply rec).w).body = (ops.foldl recApply rec).recBody := by
  induction ops with
  | nil => intro rec h; exact h
  | cons op ops ih =>
      intro rec h
      simp only [List.foldl_cons]
      apply ih
      cases op <;> simp [recApply, wApply, h] <;> split <;> simp [h]

/-- For a contract-abiding handler, the status the recorder captures is the
effective status the caller sees (200 when never set explicitly). -/
theorem rec_status_inv (ops : List WOp) :
    ∀ (rec : Recorder) (b : Bool), wBehaved b ops = true →
      (if b then rec.w.status = some rec.statusCode
       else rec.w.status = none ∧ rec.statusCode = 200) →
      ((ops.foldl recApply rec).w).status.getD 200 = (ops.foldl recApply rec).statusCode := by
  induction ops with
  | nil =>
      intro rec b hb hinv
      cases b with
      | true => simp only [if_true] at hinv; simp [hinv]
      | false =>
          simp only [Bool.false_eq_true, if_false] at hinv
          simp [hinv.1, hinv.2]
  | cons op ops ih =>
      intro rec b hb hinv
      simp only [List.foldl_cons]
      cases op with
      | setH k v => exact ih _ b hb hinv
      | addH k v => exact ih _ b hb hinv
      | writeHeader st =>
          simp only [wBehaved, Bool.and_eq_true, Bool.not_eq_true'] at hb
          obtain ⟨hb1, hb2⟩ := hb
          subst hb1
          apply ih _ true hb2
          simp only [Bool.false_eq_true, if_false] at hinv
          simp [recApply, wApply, hinv.1]
      | write bs =>
          apply ih _ true hb
          cases b with
          | true =>
              simp only [if_true] at hinv
              simp [recApply, wApply, hinv]
          | false =>
              simp only [Bool.false_eq_true, if_false] at hinv
              simp [recApply, wApply, hinv.1, hinv.2]

/-! ### Header well-formedness is preserved by writer operations -/

theorem headerAdd_keys (h : Header) (k v : String) :
    (headerAdd h k v).map Prod.fst = h.map Prod.fst ∨
      ((headerAdd h k v).map Prod.fst = h.map Prod.fst ++ [k] ∧ k ∉ h.map Prod.fst) := by
  induction h with
  | nil => right; simp [headerAdd]
  | cons hd tl ih =>
      cases hd with
      | mk k' vs =>
          by_cases he : k' = k
          · left; simp [headerAdd, he]
          · rcases ih with h1 | h2
            · left; simp [headerAdd, he, h1]
            · right
              constructor
              · simp [headerAdd, he, h2.1]
              · simp only [List.map_cons, List.mem_cons]
                push_neg
                exact ⟨fun hc => he hc.symm, h2.2⟩

theorem headerSet_keys (h : Header) (k v : String) :
    (headerSet h k v).map Prod.fst = h.map Prod.fst ∨
      ((headerSet h k v).map Prod.fst = h.map Prod.fst ++ [k] ∧ k ∉ h.map Prod.fst) := by
  induction h with
  | nil => right; simp [headerSet]
  | cons hd tl ih =>
      cases hd with
      | mk k' vs =>
          by_cases he : k' = k
          · left; simp [headerSet, he]
          · rcases ih with h1 | h2
            · left; simp [headerSet, he, h1]
            · right
              constructor
              · simp [headerSet, he, h2.1]
              · simp only [List.map_cons, List.mem_cons]
                push_neg
                exact ⟨fun hc => he hc.symm, h2.2⟩

theorem headerAdd_vals (h : Header) (k v : String)
    (hv : ∀ p ∈ h, p.2 ≠ ([] : List String)) :
    ∀ p ∈ headerAdd h k v, p.2 ≠ ([] : List String) := by
  induction h with
  | nil =>
      intro p hp
      simp [headerAdd] at hp
      simp [hp]
  | cons hd tl ih =>
      cases hd with
      | mk k' vs =>
          by_cases he : k' = k
          · intro p hp
            simp only [headerAdd, if_pos he, List.mem_cons] at hp
            rcases hp with hp | hp
            · subst hp; simp
            · exact hv p (List.mem_cons_of_mem _ hp)
          · intro p hp
            simp only [headerAdd, if_neg he, List.mem_cons] at hp
            rcases hp with hp | hp
            · subst hp; exact hv (k', vs) (by simp)
            · exact ih (fun q hq => hv q (List.mem_cons_of_mem _ hq)) p hp

theorem headerSet_vals (h : Header) (k v : String)
    (hv : ∀ p ∈ h, p.2 ≠ ([] : List String)) :
    ∀ p ∈ headerSet h k v, p.2 ≠ ([] : List String) := by
  induction h with
  | nil =>
      intro p hp
      simp [headerSet] at hp
      simp [hp]
  | cons hd tl ih =>
      cases hd with
      | mk k' vs =>
          by_cases he : k' = k
          · intro p hp
            simp only [headerSet, if_pos he, List.mem_cons] at hp
            rcases hp with hp | hp
            · subst hp; simp
            · exact hv p (List.mem_cons_of_mem _ hp)
          · intro p hp
            simp only [headerSet, if_neg he, List.mem_cons] at hp
            rcases hp with hp | hp
            · subst hp; exact hv (k', vs) (by simp)
            · exact ih (fun q hq => hv q (List.mem_cons_of_mem _ hq)) p hp

theorem headerWF_add (h : Header) (k v : String) (hwf : headerWF h) :
    headerWF (headerAdd h k v) := by
  constructor
  · rcases headerAdd_keys h k v with h1 | h2
    · rw [h1]; exact hwf.1
    · rw [h2.1, List.nodup_append]
      refine ⟨hwf.1, List.nodup_singleton _, ?_⟩
      intro a ha hak
      simp only [List.mem_singleton] at hak
      exact h2.2 (hak ▸ ha)
  · exact headerAdd_vals h k v hwf.2

theorem headerWF_set (h : Header) (k v : String) (hwf : headerWF h) :
    headerWF (headerSet h k v) := by
  constructor
  · rcases headerSet_keys h k v with h1 | h2
    · rw [h1]; exact hwf.1
    · rw [h2.1, List.nodup_append]
      refine ⟨hwf.1, List.nodup_singleton _, ?_⟩
      intro a ha hak
      simp only [List.mem_singleton] at hak
      exact h2.2 (hak ▸ ha)
  · exact headerSet_vals h k v hwf.2

theorem wApply_WF (w : RespWriter) (op : WOp) (hwf : headerWF w.headers) :
    headerWF (wApply w op).headers := by
  cases op with
  | setH k v => exact headerWF_set w.headers k v hwf
  | addH k v => exact headerWF_add w.headers k v hwf
  | writeHeader s =>
      by_cases hs : w.status.isSome <;> simp [wApply, hs, hwf]
  | write bs => exact hwf

theorem foldW_WF (ops : List WOp) :
    ∀ w : RespWriter, headerWF w.headers → headerWF ((ops.foldl wApply w).headers) := by
  induction ops with
  | nil => intro w hwf; exact hwf
  | cons op ops ih =>
      intro w hwf
      simp only [List.foldl_cons]
      exact ih _ (wApply_WF w op hwf)

/-! ### Association-list and filter lemmas -/

theorem assocFind_notmem {α : Type} (l : List (String × α)) (key : String)
    (h : key ∉ l.map Prod.fst) : assocFind l key = none := by
  induction l with
  | nil => rfl
  | cons hd tl ih =>
      simp only [List.map_cons, List.mem_cons] at h
      push_neg at h
      simp only [assocFind, List.find?]
      rw [show (hd.1 == key) = false from beq_eq_false_iff_ne.2 (fun he => h.1 he.symm)]
      exact ih h.2

theorem memGet_filter (now : Nat) (key : String) :
    ∀ l : List (String × CachedResponse × Nat), (l.map Prod.fst).Nodup →
      (match assocFind (l.filter (fun p => ¬ now > p.2.2)) key with
       | none => ((none : Option CachedResponse), some GErr.notFound)
       | some (c, expiresAt) =>
           if now > expiresAt then (none, some GErr.notFound) else (some c, none)) =
      (match assocFind l key with
       | none => ((none : Option CachedResponse), some GErr.notFound)
       | some (c, expiresAt) =>
           if now > expiresAt then (none, some GErr.notFound) else (some c, none)) := by
  intro l
  induction l with
  | nil => intro _; rfl
  | cons hd tl ih =>
      intro hnd
      obtain ⟨k', c', e'⟩ := hd
      simp only [List.map_cons, List.nodup_cons] at hnd
      by_cases hk : k' = key
      · by_cases hq : now > e'
        · have e1 : ((k', c', e') :: tl).filter (fun p => ¬ now > p.2.2) =
              tl.filter (fun p => ¬ now > p.2.2) := by
            simp [List.filter_cons, hq]
          have hnm : key ∉ (tl.filter (fun p => ¬ now > p.2.2)).map Prod.fst := by
            intro hmem
            rcases List.mem_map.1 hmem with ⟨p, hp, hp1⟩
            apply hnd.1
            rw [hk, ← hp1]
            exact List.mem_map_of_mem Prod.fst (List.mem_of_mem_filter hp)
          have e2 : assocFind ((k', c', e') :: tl) key = some (c', e') := by
            simp [assocFind, List.find?, hk]
          rw [e1, assocFind_notmem _ _ hnm, e2]
          simp [hq]
        · have e1 : ((k', c', e') :: tl).filter (fun p => ¬ now > p.2.2) =
              (k', c', e') :: tl.filter (fun p => ¬ now > p.2.2) := by
            simp [List.filter_cons, hq]
          have e2 : assocFind ((k', c', e') :: tl) key = some (c', e') := by
            simp [assocFind, List.find?, hk]
          have e3 : assocFind ((k', c', e') :: tl.filter (fun p => ¬ now > p.2.2)) key =
              some (c', e') := by
            simp [assocFind, List.find?, hk]
          rw [e1, e3, e2]
      · have hbeq : (k' == key) = false := beq_eq_false_iff_ne.2 hk
        have e2 : assocFind ((k', c', e') :: tl) key = assocFind tl key := by
          simp [assocFind, List.find?, hbeq]
        by_cases hq : now > e'
        · have e1 : ((k', c', e') :: tl).filter (fun p => ¬ now > p.2.2) =
              tl.filter (fun p => ¬ now > p.2.2) := by
            simp [List.filter_cons, hq]
          rw [e1, e2]
          exact ih hnd.2
        · have e1 : ((k', c', e') :: tl).filter (fun p => ¬ now > p.2.2) =
              (k', c', e') :: tl.filter (fun p => ¬ now > p.2.2) := by
            simp [List.filter_cons, hq]
          have e3 : assocFind ((k', c', e') :: tl.filter (fun p => ¬ now > p.2.2)) key =
              assocFind (tl.filter (fun p => ¬ now > p.2.2)) key := by
            simp [assocFind, List.find?, hbeq]
          rw [e1, e3, e2]
          exact ih hnd.2

/-! ### Claim theorems (abstract store) -/

/-- C6: a request with a non-mutating method, or whose configured idempotency
header is empty or absent, bypasses the middleware: no fingerprinting, no lock,
no cache read or write; the wrapped handler runs and the request and response
pass through unmodified with no marker header added by the middleware. -/
theorem C6_bypass {σ : Type} (ops : StoreOps σ) (cfg : Config) (next : Handler)
    (now : Nat) (s : σ) (r : Request)
    (h : isIdempotentMethod r.method = false ∨ headerGet r.headers cfg.headerName = "") :
    runMiddleware ops cfg next now s r = ⟨runHandler next r, s, [.handlerRun]⟩ := by
  rcases h with h | h
  · simp [runMiddleware, h]
  · by_cases hm : isIdempotentMethod r.method
    · simp [runMiddleware, hm, h]
    · simp [runMiddleware, hm]

/-- C4: failures before the wrapped handler runs abort the request without invoking
it: fingerprinting failure answers 400 before any lock is acquired,
`ErrRequestInProgress` from `Lock` answers 409, any other `Lock` error answers 500. -/
theorem C4_pre_handler_failures {σ : Type} (ops : StoreOps σ) (cfg : Config)
    (next : Handler) (now : Nat) (s : σ) (r : Request) (key : String)
    (hm : isIdempotentMethod r.method = true)
    (hk : headerGet r.headers cfg.headerName = key) (hk0 : key ≠ "") :
    (cfg.keyFunc r key = none →
      runMiddleware ops cfg next now s r =
        ⟨httpError 400 "Invalid idempotency key", s, [.keyFn]⟩) ∧
    (∀ fullKey s1, cfg.keyFunc r key = some fullKey → ops.lock s fullKey = .inProgress s1 →
      runMiddleware ops cfg next now s r =
        ⟨httpError 409 "Request already in progress", s1, [.keyFn, .lockCall]⟩) ∧
    (∀ fullKey s1, cfg.keyFunc r key = some fullKey → ops.lock s fullKey = .fail s1 →
      runMiddleware ops cfg next now s r =
        ⟨httpError 500 "Internal server error", s1, [.keyFn, .lockCall]⟩) ∧
    (httpError 400 "Invalid idempotency key").status = some 400 ∧
    (httpError 409 "Request already in progress").status = some 409 ∧
    (httpError 500 "Internal server error").status = some 500 := by
  refine ⟨?_, ?_, ?_, rfl, rfl, rfl⟩
  · intro hkf
    simp [runMiddleware, hm, hk, hk0, hkf]
  · intro fullKey s1 hkf hl
    simp [runMiddleware, hm, hk, hk0, hkf, hl]
  · intro fullKey s1 hkf hl
    simp [runMiddleware, hm, hk, hk0, hkf, hl]

/-- C3: a post-lock cache hit releases the lock, replays the stored status, headers
and body verbatim, adds `X-Idempotency-Cached: true`, and does not invoke the
wrapped handler. -/
theorem C3_cache_hit_replay {σ : Type} (ops : StoreOps σ) (cfg : Config) (next : Handler)
    (now : Nat) (s s1 : σ) (unlock : σ → σ) (r : Request) (key fullKey : String)
    (c : CachedResponse)
    (hm : isIdempotentMethod r.method = true)
    (hk : headerGet r.headers cfg.headerName = key) (hk0 : key ≠ "")
    (hkf : cfg.keyFunc r key = some fullKey)
    (hl : ops.lock s fullKey = .ok s1 unlock)
    (hg : ops.get s1 fullKey = (some c, none))
    (hwf : headerWF c.headers) :
    runMiddleware ops cfg next now s r =
      ⟨⟨headerSet c.headers "X-Idempotency-Cached" "true", some c.statusCode, c.body⟩,
        unlock s1, [.keyFn, .lockCall, .getCall, .unlockCall]⟩ ∧
    headerGet (headerSet c.headers "X-Idempotency-Cached" "true") "X-Idempotency-Cached" =
      "true" := by
  constructor
  · have hw := writeCached_spec c hwf
    simp [runMiddleware, hm, hk, hk0, hkf, hl, hg, hw]
  · exact headerGet_set_self c.headers _ _

/-- C9: after lock acquisition, any error from `Get` — not only NotFound — is
treated exactly as a cache miss: the wrapped handler runs, the captured response
is persisted, and the `Get` error is never surfaced to the caller. -/
theorem C9_get_error_is_miss {σ : Type} (ops : StoreOps σ) (cfg : Config) (next : Handler)
    (now : Nat) (s s1 : σ) (unlock : σ → σ) (r : Request) (key fullKey : String)
    (copt : Option CachedResponse) (e : GErr)
    (hm : isIdempotentMethod r.method = true)
    (hk : headerGet r.headers cfg.headerName = key) (hk0 : key ≠ "")
    (hkf : cfg.keyFunc r key = some fullKey)
    (hl : ops.lock s fullKey = .ok s1 unlock)
    (hg : ops.get s1 fullKey = (copt, some e)) :
    runMiddleware ops cfg next now s r =
      ⟨((next r).foldl recApply ⟨emptyWriter, 200, []⟩).w,
        unlock (ops.set s1 fullKey
          ⟨((next r).foldl recApply ⟨emptyWriter, 200, []⟩).statusCode,
           ((next r).foldl recApply ⟨emptyWriter, 200, []⟩).w.headers,
           ((next r).foldl recApply ⟨emptyWriter, 200, []⟩).recBody, now⟩ cfg.ttl).1,
        [.keyFn, .lockCall, .getCall, .handlerRun, .setCall, .unlockCall]⟩ := by
  cases copt <;> simp [runMiddleware, hm, hk, hk0, hkf, hl, hg]

/-- C5: on every path where `Lock` succeeded the release capability is invoked
exactly once before the request completes — cache hit, normal execution, and `Set`
failure alike — and a `Set` failure is never surfaced nor changes the response. -/
theorem C5_unlock_exactly_once {σ : Type} (ops : StoreOps σ) (cfg : Config)
    (next : Handler) (now : Nat) (s s1 : σ) (unlock : σ → σ) (r : Request)
    (key fullKey : String)
    (hm : isIdempotentMethod r.method = true)
    (hk : headerGet r.headers cfg.headerName = key) (hk0 : key ≠ "")
    (hkf : cfg.keyFunc r key = some fullKey)
    (hl : ops.lock s fullKey = .ok s1 unlock) :
    (runMiddleware ops cfg next now s r).events.count .unlockCall = 1 ∧
    (∀ c, ops.get s1 fullKey = (some c, none) →
      (runMiddleware ops cfg next now s r).store = unlock s1) ∧
    (∀ res, ops.get s1 fullKey = res → (∀ c, res ≠ (some c, none)) →
      (runMiddleware ops cfg next now s r).writer =
        ((next r).foldl recApply ⟨emptyWriter, 200, []⟩).w ∧
      (runMiddleware ops cfg next now s r).store =
        unlock (ops.set s1 fullKey
          ⟨((next r).foldl recApply ⟨emptyWriter, 200, []⟩).statusCode,
           ((next r).foldl recApply ⟨emptyWriter, 200, []⟩).w.headers,
           ((next r).foldl recApply ⟨emptyWriter, 200, []⟩).recBody, now⟩ cfg.ttl).1) := by
  refine ⟨?_, ?_, ?_⟩
  · rcases hg : ops.get s1 fullKey with ⟨copt, eopt⟩
    cases copt with
    | some c =>
        cases eopt with
        | none => simp [runMiddleware, hm, hk, hk0, hkf, hl, hg, List.count_cons]
        | some e => simp [runMiddleware, hm, hk, hk0, hkf, hl, hg, List.count_cons]
    | none =>
        cases eopt with
        | none => simp [runMiddleware, hm, hk, hk0, hkf, hl, hg, List.count_cons]
        | some e => simp [runMiddleware, hm, hk, hk0, hkf, hl, hg, List.count_cons]
  · intro c hg
    simp [runMiddleware, hm, hk, hk0, hkf, hl, hg]
  · intro res hg hne
    rcases res with ⟨copt, eopt⟩
    cases copt with
    | none =>
        cases eopt with
        | none => exact ⟨by simp [runMiddleware, hm, hk, hk0, hkf, hl, hg],
            by simp [runMiddleware, hm, hk, hk0, hkf, hl, hg]⟩
        | some e => exact ⟨by simp [runMiddleware, hm, hk, hk0, hkf, hl, hg],
            by simp [runMiddleware, hm, hk, hk0, hkf, hl, hg]⟩
    | some c =>
        cases eopt with
        | none => exact absurd rfl (hne c)
        | some e => exact ⟨by simp [runMiddleware, hm, hk, hk0, hkf, hl, hg],
            by simp [runMiddleware, hm, hk, hk0, hkf, hl, hg]⟩

/-- C7: the in-process store's `Get` returns `ErrNotFound` both for a missing key
and for an entry whose expiry time has strictly passed, and its result does not
depend on whether the cleanup sweep has run. -/
theorem C7_memGet_expiry (now : Nat) (s : MemState) (key : String)
    (hnd : (s.data.map Prod.fst).Nodup) :
    (assocFind s.data key = none → memGet now s key = (none, some .notFound)) ∧
    (∀ c exp, assocFind s.data key = some (c, exp) → now > exp →
      memGet now s key = (none, some .notFound)) ∧
    memGet now (memCleanup now s) key = memGet now s key := by
  refine ⟨?_, ?_, ?_⟩
  · intro h
    simp [memGet, h]
  · intro c exp h hlt
    simp [memGet, h, hlt]
  · exact memGet_filter now key s.data hnd

/-- C8: the Redis store's `Lock` issues exactly one atomic SETNX on
`"lock:" + key` with a 30-second TTL, reports `ErrRequestInProgress` when the lock
key already exists, hands back a release capability when it does not, and that
capability deletes the lock key. -/
theorem C8_redis_lock (now : Nat) (s : RedisState) (key : String) :
    (stateOf (redisLock now s key)).log =
      s.log ++ [.setnx ("lock:" ++ key) "1" redisLockTTL] ∧
    (redisLive now s ("lock:" ++ key) = true →
      redisLock now s key =
        .inProgress { s with log := s.log ++ [.setnx ("lock:" ++ key) "1" redisLockTTL] }) ∧
    (redisLive now s ("lock:" ++ key) = false →
      redisLock now s key =
        .ok ⟨assocSet s.kv ("lock:" ++ key) ("1", now + redisLockTTL),
             s.log ++ [.setnx ("lock:" ++ key) "1" redisLockTTL]⟩
          (fun s' => redisDel s' ("lock:" ++ key))) ∧
    (∀ s' : RedisState,
      (redisDel s' ("lock:" ++ key)).kv =
        s'.kv.filter (fun p => ¬ p.1 == ("lock:" ++ key)) ∧
      (redisDel s' ("lock:" ++ key)).log = s'.log ++ [.del ("lock:" ++ key)]) := by
  refine ⟨?_, ?_, ?_, ?_⟩
  · by_cases hl : redisLive now s ("lock:" ++ key) <;>
      simp [redisLock, redisSetNX, stateOf, hl]
  · intro hl
    simp [redisLock, redisSetNX, hl]
  · intro hl
    simp [redisLock, redisSetNX, hl]
  · intro s'
    exact ⟨rfl, rfl⟩

/-! ### C2: fingerprint distinctness -/

/-- C2 (corrected): with the same idempotency key, two requests get different
fingerprints from `defaultKeyFunc` whenever the SHA-256 digests of their
method ‖ path ‖ body concatenations differ. (The unamended claim is false: the
concatenation has no separators, so distinct method/path/body triples can
concatenate identically and then collide, see the counterexample.) -/
theorem C2_fingerprints_amended (r1 r2 : Request) (key : String)
    (h : sha256hex (bytes r1.method ++ bytes r1.path ++ r1.body) ≠
         sha256hex (bytes r2.method ++ bytes r2.path ++ r2.body)) :
    defaultKeyFunc r1 key ≠ defaultKeyFunc r2 key := by
  simp only [defaultKeyFunc, ne_eq, Option.some.injEq]
  intro heq
  apply h
  have hd := congrArg String.data heq
  simp only [String.data_append] at hd
  exact congrArg String.mk (List.append_cancel_left hd)

set_option maxRecDepth 100000 in
/-- C2 counterexample: two requests with the same idempotency key and the same
method but different path and different body whose concatenations coincide
(`"POST" ++ "/ab" ++ "c" = "POST" ++ "/a" ++ "bc"`), so `defaultKeyFunc` gives
them the same fingerprint and they are treated as the same operation. -/
theorem C2_collision_counterexample :
    (⟨"POST", "/ab", bytes "c", []⟩ : Request).path ≠
      (⟨"POST", "/a", bytes "bc", []⟩ : Request).path ∧
    (⟨"POST", "/ab", bytes "c", []⟩ : Request).body ≠
      (⟨"POST", "/a", bytes "bc", []⟩ : Request).body ∧
    defaultKeyFunc ⟨"POST", "/ab", bytes "c", []⟩ "pay-1" =
      defaultKeyFunc ⟨"POST", "/a", bytes "bc", []⟩ "pay-1" := by
  refine ⟨by decide, by decide, ?_⟩
  have hcat : bytes "POST" ++ bytes "/ab" ++ bytes "c" =
      bytes "POST" ++ bytes "/a" ++ bytes "bc" := by decide
  show some _ = some _
  dsimp only [defaultKeyFunc]
  rw [hcat]

/-! ### C10: the orphaned-waiter wedge of the in-process lock -/

theorem memLock_wedged (s : MemState) (key : String)
    (h : (lockStateOf s key).held = true) :
    memLock s key =
      .inProgress { s with locks := assocSet s.locks key ⟨true, (lockStateOf s key).pending + 1⟩ } := by
  simp [memLock, h]

/-- C10: if a `Lock(key)` call times out while the per-key mutex is held, the
goroutine it spawned stays blocked; when the holder then releases, that orphaned
goroutine silently acquires the mutex and nobody can ever release it, so every
subsequent `Lock(key)` returns `ErrRequestInProgress`, forever. -/
theorem C10_lock_wedge (s0 : MemState) (key : String)
    (h : lockStateOf s0 key = ⟨true, 0⟩) :
    memLock s0 key = .inProgress { s0 with locks := assocSet s0.locks key ⟨true, 1⟩ } ∧
    lockStateOf (memUnlock key { s0 with locks := assocSet s0.locks key ⟨true, 1⟩ }) key =
      ⟨true, 0⟩ ∧
    ∀ n, ∃ s', memLock
        (lockIter key n (memUnlock key { s0 with locks := assocSet s0.locks key ⟨true, 1⟩ }))
        key = .inProgress s' := by
  have h1 : memLock s0 key =
      .inProgress { s0 with locks := assocSet s0.locks key ⟨true, 1⟩ } := by
    have := memLock_wedged s0 key (by rw [h])
    rwa [h] at this
  have hst : lockStateOf { s0 with locks := assocSet s0.locks key ⟨true, 1⟩ } key =
      ⟨true, 1⟩ := by
    simp [lockStateOf, assocFind_set_self]
  have h2 : lockStateOf (memUnlock key { s0 with locks := assocSet s0.locks key ⟨true, 1⟩ }) key =
      ⟨true, 0⟩ := by
    simp [memUnlock, hst, lockStateOf, assocFind_set_self]
  refine ⟨h1, h2, ?_⟩
  have inv : ∀ n s, (lockStateOf s key).held = true →
      (lockStateOf (lockIter key n s) key).held = true := by
    intro n
    induction n with
    | zero => intro s hs; exact hs
    | succ n ih =>
        intro s hs
        have hstep : lockIter key (n + 1) s =
            lockIter key n { s with locks := assocSet s.locks key ⟨true, (lockStateOf s key).pending + 1⟩ } := by
          rw [show lockIter key (n + 1) s =
              (match memLock s key with
               | .ok s' _ => lockIter key n s'
               | .inProgress s' => lockIter key n s'
               | .fail s' => lockIter key n s') from rfl]
          rw [memLock_wedged s key hs]
        rw [hstep]
        apply ih
        simp [lockStateOf, assocFind_set_self]
  intro n
  have hw := inv n _ (by rw [h2])
  exact ⟨_, memLock_wedged _ key hw⟩

/-! ### C1: sequential replay on the in-process store -/

theorem memUnlock_eq (key : String) (d : List (String × CachedResponse × Nat))
    (lk : List (String × LockSt)) (h : assocFind lk key = some ⟨true, 0⟩) :
    memUnlock key ⟨d, lk⟩ = ⟨d, assocSet lk key ⟨false, 0⟩⟩ := by
  simp [memUnlock, lockStateOf, h]

theorem memRun_miss (cfg : Config) (next : Handler) (now : Nat) (s0 : MemState)
    (r : Request) (key fullKey : String)
    (hm : isIdempotentMethod r.method = true)
    (hk : headerGet r.headers cfg.headerName = key) (hk0 : key ≠ "")
    (hkf : cfg.keyFunc r key = some fullKey)
    (hlock : lockStateOf s0 fullKey = ⟨false, 0⟩)
    (hfresh : assocFind s0.data fullKey = none) :
    runMiddleware (memOps now) cfg next now s0 r =
      ⟨((next r).foldl recApply ⟨emptyWriter, 200, []⟩).w,
        memUnlock fullKey
          ⟨assocSet s0.data fullKey
              (⟨((next r).foldl recApply ⟨emptyWriter, 200, []⟩).statusCode,
                ((next r).foldl recApply ⟨emptyWriter, 200, []⟩).w.headers,
                ((next r).foldl recApply ⟨emptyWriter, 200, []⟩).recBody, now⟩,
               now + cfg.ttl),
            assocSet s0.locks fullKey ⟨true, 0⟩⟩,
        [.keyFn, .lockCall, .getCall, .handlerRun, .setCall, .unlockCall]⟩ := by
  have hL : memLock s0 fullKey =
      .ok ⟨s0.data, assocSet s0.locks fullKey ⟨true, 0⟩⟩ (memUnlock fullKey) := by
    simp [memLock, hlock]
  have hG : memGet now ⟨s0.data, assocSet s0.locks fullKey ⟨true, 0⟩⟩ fullKey =
      (none, some .notFound) := by
    simp [memGet, hfresh]
  simp [runMiddleware, memOps, hm, hk, hk0, hkf, hL, hG, memSet]

theorem memRun_hit (cfg : Config) (next : Handler) (now : Nat) (s0 : MemState)
    (r : Request) (key fullKey : String) (c : CachedResponse) (expiry : Nat)
    (hm : isIdempotentMethod r.method = true)
    (hk : headerGet r.headers cfg.headerName = key) (hk0 : key ≠ "")
    (hkf : cfg.keyFunc r key = some fullKey)
    (hlock : lockStateOf s0 fullKey = ⟨false, 0⟩)
    (hfind : assocFind s0.data fullKey = some (c, expiry))
    (hexp : ¬ now > expiry) :
    runMiddleware (memOps now) cfg next now s0 r =
      ⟨writeCached emptyWriter c,
        memUnlock fullKey ⟨s0.data, assocSet s0.locks fullKey ⟨true, 0⟩⟩,
        [.keyFn, .lockCall, .getCall, .unlockCall]⟩ := by
  have hL : memLock s0 fullKey =
      .ok ⟨s0.data, assocSet s0.locks fullKey ⟨true, 0⟩⟩ (memUnlock fullKey) := by
    simp [memLock, hlock]
  have hG : memGet now ⟨s0.data, assocSet s0.locks fullKey ⟨true, 0⟩⟩ fullKey =
      (some c, none) := by
    simp [memGet, hfind, hexp]
  simp [runMiddleware, memOps, hm, hk, hk0, hkf, hL, hG]

/-- C1 (corrected/amended): two sequential requests through the middleware over the
in-process store with identical idempotency key, method, path and body (same
fingerprint), starting from a state with no cached entry and a free lock for that
fingerprint, and a handler abiding by the `http.ResponseWriter` contract: the
replayed response carries byte-identical status and body, its headers are the
first response's headers with the `X-Idempotency-Cached: true` marker set on top
(so the header sets are NOT byte-identical, which is what the unamended claim
asserted), and the wrapped handler runs exactly once across both requests. -/
theorem C1_sequential_replay (cfg : Config) (next : Handler) (now : Nat) (s0 : MemState)
    (r : Request) (key fullKey : String) (o1 o2 : MwOut MemState)
    (hm : isIdempotentMethod r.method = true)
    (hk : headerGet r.headers cfg.headerName = key) (hk0 : key ≠ "")
    (hkf : cfg.keyFunc r key = some fullKey)
    (hlock : lockStateOf s0 fullKey = ⟨false, 0⟩)
    (hfresh : assocFind s0.data fullKey = none)
    (hwb : wBehaved false (next r) = true)
    (ho1 : o1 = runMiddleware (memOps now) cfg next now s0 r)
    (ho2 : o2 = runMiddleware (memOps now) cfg next now o1.store r) :
    o2.writer.status = some (o1.writer.status.getD 200) ∧
    o2.writer.body = o1.writer.body ∧
    o2.writer.headers = headerSet o1.writer.headers "X-Idempotency-Cached" "true" ∧
    headerGet o2.writer.headers "X-Idempotency-Cached" = "true" ∧
    o1.events.count .handlerRun = 1 ∧
    o2.events.count .handlerRun = 0 := by
  subst ho1
  subst ho2
  rw [memRun_miss cfg next now s0 r key fullKey hm hk hk0 hkf hlock hfresh]
  dsimp only
  rw [memUnlock_eq fullKey _ _ (assocFind_set_self s0.locks fullKey ⟨true, 0⟩)]
  rw [memRun_hit cfg next now _ r key fullKey
      ⟨((next r).foldl recApply ⟨emptyWriter, 200, []⟩).statusCode,
        ((next r).foldl recApply ⟨emptyWriter, 200, []⟩).w.headers,
        ((next r).foldl recApply ⟨emptyWriter, 200, []⟩).recBody, now⟩ (now + cfg.ttl)
      hm hk hk0 hkf
      (by simp [lockStateOf, assocFind_set_self])
      (assocFind_set_self s0.data fullKey _)
      (by omega)]
  dsimp only
  have hwfc : headerWF ((next r).foldl recApply ⟨emptyWriter, 200, []⟩).w.headers := by
    rw [foldRec_w]
    exact foldW_WF (next r) emptyWriter headerWF_nil
  have hS := writeCached_spec
    ⟨((next r).foldl recApply ⟨emptyWriter, 200, []⟩).statusCode,
      ((next r).foldl recApply ⟨emptyWriter, 200, []⟩).w.headers,
      ((next r).foldl recApply ⟨emptyWriter, 200, []⟩).recBody, now⟩ hwfc
  rw [hS]
  have hst := rec_status_inv (next r) ⟨emptyWriter, 200, []⟩ false hwb ⟨rfl, rfl⟩
  have hbd := foldRec_body (next r) ⟨emptyWriter, 200, []⟩ rfl
  refine ⟨?_, ?_, ?_, ?_, ?_, ?_⟩
  · dsimp only
    rw [hst]
  · dsimp only
    rw [hbd]
  · rfl
  · exact headerGet_set_self _ _ _
  · rfl
  · rfl

set_option maxRecDepth 1000000 in
/-- C1 counterexample: a concrete pair of identical POST requests through the full
middleware (default config with `defaultKeyFunc`, in-process store): the second,
replayed response has byte-identical status and body but NOT byte-identical
headers — the replay adds `X-Idempotency-Cached: true`, absent from the first
response — while the handler runs exactly once across both requests. -/
theorem C1_marker_counterexample :
    cxRun2.writer.headers ≠ cxRun1.writer.headers ∧
    cxRun2.writer.body = cxRun1.writer.body ∧
    cxRun2.writer.status = some 200 ∧ cxRun1.writer.status = some 200 ∧
    headerGet cxRun2.writer.headers "X-Idempotency-Cached" = "true" ∧
    headerGet cxRun1.writer.headers "X-Idempotency-Cached" = "" ∧
    cxRun1.events.count .handlerRun + cxRun2.events.count .handlerRun = 1 := by
  decide

/-! ### Concrete witnesses -/

theorem C6_bypass_witness :
    runMiddleware (memOps 0) defaultConfig cxHandler 0 emptyMemState ⟨"GET", "/pay", [], []⟩ =
      ⟨runHandler cxHandler ⟨"GET", "/pay", [], []⟩, emptyMemState, [.handlerRun]⟩ :=
  C6_bypass (memOps 0) defaultConfig cxHandler 0 emptyMemState _ (Or.inl (by decide))

theorem C4_pre_handler_failures_witness :
    runMiddleware
        (⟨fun _ _ => (none, some .notFound), fun s _ _ _ => (s, none),
          fun s _ => .fail s⟩ : StoreOps Nat)
        ⟨"Idempotency-Key", 0, fun _ _ => none⟩ cxHandler 0 0 cxRequest =
      ⟨httpError 400 "Invalid idempotency key", 0, [.keyFn]⟩ :=
  (C4_pre_handler_failures
      (⟨fun _ _ => (none, some .notFound), fun s _ _ _ => (s, none),
        fun s _ => .fail s⟩ : StoreOps Nat)
      ⟨"Idempotency-Key", 0, fun _ _ => none⟩ cxHandler 0 0 cxRequest "key-1"
      rfl rfl (by decide)).1 rfl

theorem C3_cache_hit_replay_witness :
    headerGet (headerSet [("A", ["b"])] "X-Idempotency-Cached" "true")
      "X-Idempotency-Cached" = "true" :=
  (C3_cache_hit_replay
      (⟨fun _ _ => (some ⟨201, [("A", ["b"])], bytes "out", 0⟩, none),
        fun s _ _ _ => (s, none),
        fun s _ => .ok (s + 1) (fun t => t + 10)⟩ : StoreOps Nat)
      ⟨"Idempotency-Key", 0, fun _ k => some k⟩ cxHandler 0 0 1 (fun t => t + 10)
      cxRequest "key-1" "key-1" ⟨201, [("A", ["b"])], bytes "out", 0⟩
      rfl rfl (by decide) rfl rfl rfl ⟨by decide, by decide⟩).2

theorem C5_unlock_exactly_once_witness :
    (runMiddleware
        (⟨fun _ _ => (none, some (.other "io")),
          fun s _ _ _ => (s + 100, some (.other "w")),
          fun s _ => .ok (s + 1) (fun t => t + 10)⟩ : StoreOps Nat)
        ⟨"Idempotency-Key", 0, fun _ k => some k⟩ cxHandler 0 0 cxRequest).events.count
      .unlockCall = 1 :=
  (C5_unlock_exactly_once
      (⟨fun _ _ => (none, some (.other "io")),
        fun s _ _ _ => (s + 100, some (.other "w")),
        fun s _ => .ok (s + 1) (fun t => t + 10)⟩ : StoreOps Nat)
      ⟨"Idempotency-Key", 0, fun _ k => some k⟩ cxHandler 0 0 1 (fun t => t + 10)
      cxRequest "key-1" "key-1" rfl rfl (by decide) rfl rfl).1

theorem C9_get_error_is_miss_witness :
    runMiddleware
        (⟨fun _ _ => (none, some (.other "io")), fun s _ _ _ => (s, none),
          fun s _ => .ok (s + 1) (fun t => t + 10)⟩ : StoreOps Nat)
        ⟨"Idempotency-Key", 7, fun _ k => some k⟩ cxHandler 3 0 cxRequest =
      ⟨((cxHandler cxRequest).foldl recApply ⟨emptyWriter, 200, []⟩).w, 11,
        [.keyFn, .lockCall, .getCall, .handlerRun, .setCall, .unlockCall]⟩ :=
  C9_get_error_is_miss
    (⟨fun _ _ => (none, some (.other "io")), fun s _ _ _ => (s, none),
      fun s _ => .ok (s + 1) (fun t => t + 10)⟩ : StoreOps Nat)
    ⟨"Idempotency-Key", 7, fun _ k => some k⟩ cxHandler 3 0 1 (fun t => t + 10)
    cxRequest "key-1" "key-1" none (.other "io") rfl rfl (by decide) rfl rfl rfl

theorem C7_memGet_expiry_witness :
    memGet 10 ⟨[("k", ⟨200, [], [], 0⟩, 5)], []⟩ "k" = (none, some .notFound) :=
  (C7_memGet_expiry 10 ⟨[("k", ⟨200, [], [], 0⟩, 5)], []⟩ "k" (by decide)).2.1
    ⟨200, [], [], 0⟩ 5 rfl (by decide)

theorem C8_redis_lock_witness :
    redisLock 5 ⟨[], []⟩ "k" =
      .ok ⟨assocSet ([] : List (String × String × Nat)) ("lock:" ++ "k") ("1", 5 + redisLockTTL),
           ([] : List RCmd) ++ [.setnx ("lock:" ++ "k") "1" redisLockTTL]⟩
        (fun s' => redisDel s' ("lock:" ++ "k")) :=
  (C8_redis_lock 5 ⟨[], []⟩ "k").2.2.1 rfl

theorem C10_lock_wedge_witness :
    ∃ s', memLock (lockIter "k" 2
        (memUnlock "k" ⟨[], assocSet [("k", (⟨true, 0⟩ : LockSt))] "k" ⟨true, 1⟩⟩)) "k" =
      .inProgress s' :=
  (C10_lock_wedge ⟨[], [("k", ⟨true, 0⟩)]⟩ "k" (by decide)).2.2 2

theorem C1_sequential_replay_witness :
    headerGet (runMiddleware (memOps 0) ⟨"Idempotency-Key", 100, fun _ k => some k⟩ cxHandler 0
        (runMiddleware (memOps 0) ⟨"Idempotency-Key", 100, fun _ k => some k⟩ cxHandler 0
          emptyMemState cxRequest).store cxRequest).writer.headers
      "X-Idempotency-Cached" = "true" :=
  (C1_sequential_replay ⟨"Idempotency-Key", 100, fun _ k => some k⟩ cxHandler 0 emptyMemState
      cxRequest "key-1" "key-1" _ _ rfl rfl (by decide) rfl rfl rfl (by decide)
      rfl rfl).2.2.2.1

set_option maxRecDepth 1000000 in
theorem C2_fingerprints_amended_witness :
    defaultKeyFunc ⟨"POST", "/x", bytes "a", []⟩ "k" ≠
      defaultKeyFunc ⟨"POST", "/x", bytes "b", []⟩ "k" :=
  C2_fingerprints_amended _ _ "k" (by decide)

end Idem
